import Mathlib

/-!
# Verification of the bdpi_tester orchestration core

Shallow embedding of the repository's two source revisions:
* `main.rs` (top level of the repository) — the earlier flat revision;
* `src/main.rs` — the refactored revision, the Cargo build target.

Pure data flow is embedded directly; the concurrent scheduler and the
process lifecycle are embedded as explicit event traces of the
cooperatively-scheduled control flow.  Machine integers are `Nat` with
explicit `% 2 ^ 16` where u16 overflow matters; the `f32` success rate is
modelled as `ℚ` (the code's zero-total guard means the division is always
well defined, which is exactly what the rational model captures).
-/

/-! ## Group Scheduler: chunking and port assignment -/

/-- Fuel-driven worker for `chunksList`.  The fuel starts at `l.length`,
which is enough because each step removes at least one element when
`0 < G`; structural recursion on the fuel keeps the definition
kernel-computable. -/
def chunks_go (G : Nat) : Nat → List α → List (List α)
  | _, [] => []
  | 0, _ => []
  | fuel + 1, x :: xs => ((x :: xs).take G) :: chunks_go G fuel ((x :: xs).drop G)

/-- Rust `configs.chunks(settings.group_size)`: splits the configuration
list into consecutive chunks of at most `G` elements, the last chunk
possibly shorter.  Rust panics on `G = 0`; here `G = 0` yields `[]` and
every theorem assumes `0 < G` (the spec requires a positive group size). -/
def chunksList (G : Nat) (l : List α) : List (List α) :=
  chunks_go G l.length l

/-- One assigned port: `settings.start_port + i as u16` from the source.
`i` is the 0-based index inside the group.  Both the `usize → u16` cast of
`i` and the `u16` addition wrap modulo `2 ^ 16 = 65536` (release-build
semantics; a debug build would panic on overflow). -/
def port_of (start i : Nat) : Nat :=
  (start + i % 65536) % 65536

/-- The ports assigned to one group of `n` configurations, in order. -/
def group_ports (start n : Nat) : List Nat :=
  (List.range n).map (port_of start)

/-! ## Group Scheduler: barrier trace (both revisions share this shape)

`process_group` (src/main.rs) spawns one task per configuration of the
group and then awaits each task before returning; `run_all_groups` awaits
`process_group` before moving to the next chunk.  The top-level `main.rs`
revision has the same spawn-all-then-await-all loop.  The trace records a
`spawnTask` event when the scheduler spawns a runner and a `taskDone`
event when the corresponding `.await` returns (the task itself completed
at or before that point). -/

inductive SchedEv : Type where
  | spawnTask : Nat → Nat → SchedEv
  | taskDone : Nat → Nat → SchedEv
deriving DecidableEq

/-- The group a scheduler event belongs to. -/
def evGroup : SchedEv → Nat
  | .spawnTask g _ => g
  | .taskDone g _ => g

/-- Events of one group of `n` runners: all spawns (the spawn loop), then
all await-returns (the `for t in tasks \x7b t.await \x7d` loop). -/
def group_trace (g n : Nat) : List SchedEv :=
  (List.range n).map (SchedEv.spawnTask g) ++ (List.range n).map (SchedEv.taskDone g)

/-- Scheduler trace over the chunk lengths, groups numbered from `g`
upward (the source numbers groups `group_idx + 1`). -/
def sched_trace_aux (g : Nat) : List Nat → List SchedEv
  | [] => []
  | n :: rest => group_trace g n ++ sched_trace_aux (g + 1) rest

/-- The whole run's scheduler trace: strictly sequential groups. -/
def sched_trace (G : Nat) (configs : List String) : List SchedEv :=
  sched_trace_aux 1 ((chunksList G configs).map List.length)

/-! ## Group Scheduler: inter-group delay placement -/

inductive GEv : Type where
  | group : Nat → GEv
  | delay : GEv
deriving DecidableEq

/-- `run_all_groups` (src/main.rs): after group `gn` completes (and the
intermediate results are saved) it sleeps only when `gn < total_groups`. -/
def run_all_groups_sched_aux (total gn : Nat) : List (List String) → List GEv
  | [] => []
  | _ :: rest =>
    GEv.group gn :: ((if gn < total then [GEv.delay] else []) ++
      run_all_groups_sched_aux total (gn + 1) rest)

/-- Delay placement of the src/main.rs scheduler;
`total_groups = (configs.len() + group_size - 1) / group_size` as in the
source. -/
def run_all_groups_sched (G : Nat) (configs : List String) : List GEv :=
  run_all_groups_sched_aux ((configs.length + G - 1) / G) 1 (chunksList G configs)

/-- The top-level `main.rs` revision: the sleep at the end of the group
loop is unconditional, so it also runs after the final group. -/
def main_rev_sched_aux (gn : Nat) : List (List String) → List GEv
  | [] => []
  | _ :: rest => GEv.group gn :: GEv.delay :: main_rev_sched_aux (gn + 1) rest

/-- Delay placement of the top-level `main.rs` scheduler. -/
def main_rev_sched (G : Nat) (configs : List String) : List GEv :=
  main_rev_sched_aux 1 (chunksList G configs)

/-! ## Domain Probe

An attempt's outcome is `Option Bool`: `none` is a transport-level
failure (timeout, refused connection, TLS failure), `some b` is a
received HTTP response with `b = resp.status().is_success()` (2xx). -/

/-- `test_domain` (src/main.rs): the client is built, HTTPS is tried, and
on anything but a 2xx HTTPS answer (`unwrap_or(false)`) HTTP is tried as
fallback.  `clientOk` is whether `create_http_client` succeeded (on
failure the probe reports failure without attempting anything). -/
def test_domain (domain : String) (clientOk : Bool) (https http : Option Bool) :
    String × Bool :=
  if clientOk then
    (domain, if https.getD false then true else http.getD false)
  else
    (domain, false)

/-- `test_domain_via_socks5` (top-level `main.rs`): an HTTPS *response*
is final — `Ok(resp) => resp.status().is_success()` — so the HTTP
fallback runs only on an HTTPS transport error (`Err`). -/
def test_domain_via_socks5 (domain : String) (clientOk : Bool)
    (https http : Option Bool) : String × Bool :=
  if clientOk then
    match https with
    | some ok => (domain, ok)
    | none =>
      match http with
      | some ok => (domain, ok)
      | none => (domain, false)
  else
    (domain, false)

/-! ## Results data model (src/main.rs revision) -/

/-- `TestResult` (src/main.rs): the stored `success_rate` is
`successful / total * 100.0` guarded by `total > 0`, an `f32` modelled as
`ℚ`. -/
structure TestResult where
  config : String
  socks5_port : Nat
  successful_domains : List String
  failed_domains : List String
  success_rate : ℚ
deriving DecidableEq

/-- `TestResult::new` from the source. -/
def TestResult.new (config : String) (socks5_port : Nat)
    (successful failed : List String) : TestResult :=
  let total := successful.length + failed.length
  let success_rate : ℚ :=
    if total > 0 then ((successful.length : ℚ) / (total : ℚ)) * 100 else 0
  ⟨config, socks5_port, successful, failed, success_rate⟩

/-- `GroupStats` from the source. -/
structure GroupStats where
  successful : Nat
  total : Nat
deriving DecidableEq

/-- `GroupStats::success_rate` from the source, same zero-total guard. -/
def GroupStats.success_rate (s : GroupStats) : ℚ :=
  if s.total > 0 then ((s.successful : ℚ) / (s.total : ℚ)) * 100 else 0

/-! ## Config Runner dataflow (src/main.rs revision)

The environment of one runner is: did the process spawn succeed, and the
outcome of each domain probe. -/

structure ConfigRun where
  config : String
  spawn_ok : Bool
  probes : List (String × Bool)
deriving DecidableEq

/-- `test_all_domains` (src/main.rs): partition the probe outcomes into
successful and failed domain lists. -/
def test_all_domains_model (probes : List (String × Bool)) :
    List String × List String :=
  let p := probes.partition (fun r => r.2)
  (p.1.map Prod.fst, p.2.map Prod.fst)

/-- `run_config_test` wrapped by `spawn_config_test` (src/main.rs): on a
spawn failure the `?` returns early — no `TestResult` is pushed and the
task yields `None`; otherwise the runner pushes a `TestResult` and yields
`Some (config name, successes, total)`. -/
def run_config_test_model (cr : ConfigRun) (port : Nat) :
    Option (TestResult × Nat × Nat) :=
  if cr.spawn_ok then
    let sf := test_all_domains_model cr.probes
    let total_tests := sf.1.length + sf.2.length
    some (TestResult.new cr.config port sf.1 sf.2, sf.1.length, total_tests)
  else
    none

/-- `process_group` (src/main.rs): one task per configuration at port
`start_port + i`, then the await loop; each `Some` contributes its
`TestResult` (appended to the shared vector by the task) and its delta to
the `GroupStats` totals, each `None` is only logged.  The shared vector's
append order under concurrency is unspecified; the model lists appends in
task order (the spec declares append order unobservable). -/
def process_group_model (start : Nat) : Nat → List ConfigRun → List TestResult × GroupStats
  | _, [] => ([], ⟨0, 0⟩)
  | i, cr :: rest =>
    let acc := process_group_model start (i + 1) rest
    match run_config_test_model cr (port_of start i) with
    | some (r, sc, tc) => (r :: acc.1, ⟨sc + acc.2.successful, tc + acc.2.total⟩)
    | none => acc

/-! ## Config Runner lifecycle trace (src/main.rs revision)

`run_config_test` step by step: spawn (early error return on failure),
the fixed startup sleep, the probe fan-out, `stop_process` (teardown),
the append of the `TestResult`, the return.  `stop_process` is
`let _ = child.kill(); let _ = child.wait();` — both teardown results are
discarded: no branching and no log message. -/

inductive RunEv : Type where
  | spawnOk : RunEv
  | spawnErr : RunEv
  | sleep : RunEv
  | probe : String → Bool → RunEv
  | killProc : Bool → RunEv
  | waitProc : Bool → RunEv
  | append : RunEv
  | logMsg : String → RunEv
  | ret : Bool → RunEv
deriving DecidableEq

/-- `stop_process` (src/main.rs): attempt kill, attempt wait; both
results are discarded (`let _ = ...`), whatever `killOk`/`waitOk` are. -/
def stop_process_trace (killOk waitOk : Bool) : List RunEv :=
  [RunEv.killProc killOk, RunEv.waitProc waitOk]

/-- Event trace of one `run_config_test` execution.  `spawnRes` is
whether `start_ciadpi_process` succeeded, `probes` the per-domain
outcomes, `killOk`/`waitOk` the teardown results. -/
def run_config_test_trace (spawnRes killOk waitOk : Bool)
    (probes : List (String × Bool)) : List RunEv :=
  if spawnRes then
    [RunEv.spawnOk, RunEv.sleep] ++ probes.map (fun p => RunEv.probe p.1 p.2) ++
      stop_process_trace killOk waitOk ++ [RunEv.append, RunEv.ret true]
  else
    [RunEv.spawnErr, RunEv.ret false]

/-- Recognizes log events in a runner trace. -/
def isLogEv : RunEv → Bool
  | .logMsg _ => true
  | _ => false

/-! ## Results Aggregator: ranking -/

/-- `b.success_rate.partial_cmp(&a.success_rate).unwrap_or(Equal)` on the
never-NaN rates: the total comparison of two rationals. -/
def cmpRat (x y : ℚ) : Ordering :=
  if x < y then .lt else if x = y then .eq else .gt

/-- `usize::cmp` on domain counts. -/
def cmpNat (x y : Nat) : Ordering :=
  if x < y then .lt else if x = y then .eq else .gt

/-- The `write_top_configs` comparator (src/main.rs): success rate
descending, then successful-domain count descending
(`then_with` = `Ordering.then`). -/
def cmp_results (a b : TestResult) : Ordering :=
  (cmpRat b.success_rate a.success_rate).then
    (cmpNat b.successful_domains.length a.successful_domains.length)

/-- `a` may come before `b` under the comparator. -/
def rankLe (a b : TestResult) : Prop :=
  cmp_results a b ≠ Ordering.gt

instance rankLe_dec : DecidableRel rankLe := fun a b =>
  inferInstanceAs (Decidable (cmp_results a b ≠ Ordering.gt))

/-- `sorted_results.sort_by(comparator)` (src/main.rs): a stable sort by
the comparator, modelled by stable insertion sort. -/
def sort_results (rs : List TestResult) : List TestResult :=
  List.insertionSort rankLe rs

/-- `TestResult` of the top-level `main.rs` revision: no stored rate. -/
structure TestResultV1 where
  config : String
  socks5_port : Nat
  successful_domains : List String
  failed_domains : List String
deriving DecidableEq

/-- The top-level `main.rs` comparator:
`b.successful_domains.len().cmp(&a.successful_domains.len())` — count
descending only, the rate is never consulted. -/
def cmp_results_v1 (a b : TestResultV1) : Ordering :=
  cmpNat b.successful_domains.length a.successful_domains.length

def rankLeV1 (a b : TestResultV1) : Prop :=
  cmp_results_v1 a b ≠ Ordering.gt

instance rankLeV1_dec : DecidableRel rankLeV1 := fun a b =>
  inferInstanceAs (Decidable (cmp_results_v1 a b ≠ Ordering.gt))

/-- The top-level `main.rs` `write_results_file` sort. -/
def sort_results_v1 (rs : List TestResultV1) : List TestResultV1 :=
  List.insertionSort rankLeV1 rs

/-- Modelled from the spec (glossary): success rate = successful domain
count divided by total probed count (0 when the total is 0).  The
top-level `main.rs` revision stores no rate, so the claim's rate of one
of its results is this spec-side quantity. -/
def spec_success_rate (r : TestResultV1) : ℚ :=
  if r.successful_domains.length + r.failed_domains.length > 0 then
    (r.successful_domains.length : ℚ) /
      ((r.successful_domains.length + r.failed_domains.length : Nat) : ℚ)
  else 0

/-! ## Results Aggregator: report rendering (src/main.rs revision)

The report is modelled as the list of output lines (`writeln!` ends a
line); `write!` pieces are concatenated into the current line. -/

/-- Rust `"x".repeat(n)`. -/
def repeatStr (s : String) (n : Nat) : String :=
  String.join (List.replicate n s)

/-- Medal picked per rank in `write_top_configs`. -/
def medal_for (rank : Nat) : String :=
  match rank with
  | 0 => "🥇"
  | 1 => "🥈"
  | 2 => "🥉"
  | _ => "  "

/-- Left-aligned minimum-width-2 formatting of the rank number. -/
def pad_left_2 (s : String) : String :=
  if s.length < 2 then s ++ String.join (List.replicate (2 - s.length) " ") else s

/-- One-decimal fixed-point rendering of the rate, modelling the Rust
one-decimal float format of the `f32` rate. -/
def fmt_rate (q : ℚ) : String :=
  let t : ℤ := round (q * 10)
  toString (t / 10) ++ "." ++ toString (t % 10)

/-- `write_header` (src/main.rs): the only place the generation timestamp
appears. -/
def write_header_lines (timestamp : String) (total_configs : Nat) : List String :=
  [repeatStr "=" 70,
   "  BDPI TESTER - RESULTS REPORT",
   repeatStr "=" 70,
   "",
   "Generated: " ++ timestamp,
   "Total configs tested: " ++ toString total_configs,
   ""]

/-- `write_top_configs` (src/main.rs). -/
def top_config_lines (results : List TestResult) : List String :=
  [repeatStr "─" 70,
   "  TOP 10 BEST PERFORMING CONFIGS",
   repeatStr "─" 70,
   ""] ++
  ((sort_results results).take 10).enum.flatMap (fun ir =>
    let rank := ir.1
    let r := ir.2
    let total := r.successful_domains.length + r.failed_domains.length
    [medal_for rank ++ " #" ++ pad_left_2 (toString (rank + 1)) ++ " " ++ r.config ++
       " (port " ++ toString r.socks5_port ++ ")",
     "       Success: " ++ toString r.successful_domains.length ++ "/" ++
       toString total ++ " (" ++ fmt_rate r.success_rate ++ "%)",
     ""])

/-- The domain listing loop of `write_single_result`: every domain is
written as `"      " ++ domain`, three to a line, separated by `", "`. -/
def domain_group_lines (ds : List String) : List String :=
  (chunksList 3 ds).map (fun c => String.intercalate ", " (c.map ("      " ++ ·)))

/-- `write_single_result` (src/main.rs). -/
def write_single_result_lines (index : Nat) (r : TestResult) : List String :=
  let total := r.successful_domains.length + r.failed_domains.length
  ["[" ++ toString index ++ "] Config: " ++ r.config,
   "    Port: " ++ toString r.socks5_port,
   "    Success Rate: " ++ fmt_rate r.success_rate ++ "% (" ++
     toString r.successful_domains.length ++ "/" ++ toString total ++ ")",
   ""] ++
  (if r.successful_domains.isEmpty then [] else
    ("    ✓ Successful Domains (" ++ toString r.successful_domains.length ++ "):") ::
      (domain_group_lines r.successful_domains ++ [""])) ++
  (if r.failed_domains.isEmpty then [] else
    ("    ✗ Failed Domains (" ++ toString r.failed_domains.length ++ "):") ::
      (domain_group_lines r.failed_domains ++ [""])) ++
  [repeatStr "─" 70, ""]

/-- `write_detailed_results` (src/main.rs). -/
def write_detailed_lines (results : List TestResult) : List String :=
  [repeatStr "─" 70,
   "  DETAILED RESULTS FOR ALL CONFIGS",
   repeatStr "─" 70,
   ""] ++
  results.enum.flatMap (fun ir => write_single_result_lines (ir.1 + 1) ir.2)

/-- `write_results_file` (src/main.rs) as the list of report lines. -/
def report_lines (timestamp : String) (results : List TestResult) : List String :=
  write_header_lines timestamp results.length ++
    top_config_lines results ++ write_detailed_lines results

/-- The file write: open with truncate and write the whole report — the
resulting content ignores whatever the file held before (`oldContent`). -/
def write_results_file_model (_oldContent : String) (timestamp : String)
    (results : List TestResult) : String :=
  String.join ((report_lines timestamp results).map (· ++ "\n"))

/-! ## Theorems -/

/-! ### Chunking lemmas -/

/-- The fuel argument of `chunks_go` is irrelevant once it covers the
list length. -/
theorem chunks_go_congr {α : Type} (G : Nat) (hG : 0 < G) :
    ∀ (f1 : Nat) (l : List α) (f2 : Nat), l.length ≤ f1 → l.length ≤ f2 →
      chunks_go G f1 l = chunks_go G f2 l := by
  intro f1
  induction f1 with
  | zero =>
    intro l f2 h1 _
    have hl : l = [] := List.eq_nil_of_length_eq_zero (Nat.le_zero.mp h1)
    subst hl
    cases f2 <;> simp [chunks_go]
  | succ f ih =>
    intro l f2 h1 h2
    cases l with
    | nil => cases f2 <;> simp [chunks_go]
    | cons x xs =>
      cases f2 with
      | zero => simp at h2
      | succ f2' =>
        simp only [chunks_go]
        congr 1
        apply ih
        · have := List.length_drop G (x :: xs)
          simp at h1 ⊢
          omega
        · have := List.length_drop G (x :: xs)
          simp at h2 ⊢
          omega

theorem chunksList_nil {α : Type} (G : Nat) : chunksList G ([] : List α) = [] := rfl

/-- One unfolding step of `chunksList` for `0 < G` and a non-empty list. -/
theorem chunksList_cons {α : Type} (G : Nat) (hG : 0 < G) (l : List α) (hl : l ≠ []) :
    chunksList G l = l.take G :: chunksList G (l.drop G) := by
  cases l with
  | nil => exact absurd rfl hl
  | cons x xs =>
    show chunks_go G (xs.length + 1) (x :: xs) = _
    simp only [chunks_go]
    congr 1
    apply chunks_go_congr G hG
    · simp; omega
    · exact le_rfl

/-- Number of chunks is `⌈len / G⌉`, computed as in the source's
`total_groups = (configs.len() + group_size - 1) / group_size`. -/
theorem chunksList_length_aux {α : Type} (G : Nat) (hG : 0 < G) :
    ∀ (n : Nat) (l : List α), l.length ≤ n →
      (chunksList G l).length = (l.length + G - 1) / G := by
  intro n
  induction n with
  | zero =>
    intro l h
    have hl : l = [] := List.eq_nil_of_length_eq_zero (Nat.le_zero.mp h)
    subst hl
    simp [chunksList, chunks_go]
    symm
    apply Nat.div_eq_of_lt
    omega
  | succ n ih =>
    intro l h
    by_cases hl : l = []
    · subst hl
      simp [chunksList, chunks_go]
      symm
      apply Nat.div_eq_of_lt
      omega
    · rw [chunksList_cons G hG l hl]
      have hpos : 0 < l.length := List.length_pos.mpr hl
      have hdl : (l.drop G).length = l.length - G := List.length_drop G l
      rw [List.length_cons, ih (l.drop G) (by omega)]
      rw [hdl]
      rcases le_or_lt G l.length with hc | hc
      · have e1 : l.length - G + G - 1 = l.length - 1 := by omega
        have e2 : l.length + G - 1 = l.length - 1 + G := by omega
        rw [e1, e2, Nat.add_div_right _ hG]
      · have e1 : l.length - G = 0 := by omega
        have e2 : l.length + G - 1 = l.length - 1 + G := by omega
        have e3 : (l.length - 1) / G = 0 := Nat.div_eq_of_lt (by omega)
        have e4 : (0 + G - 1) / G = 0 := Nat.div_eq_of_lt (by omega)
        rw [e1, e2, Nat.add_div_right _ hG, e3, e4]

theorem chunksList_length {α : Type} (G : Nat) (hG : 0 < G) (l : List α) :
    (chunksList G l).length = (l.length + G - 1) / G :=
  chunksList_length_aux G hG l.length l le_rfl

/-- The chunks concatenate back to the original list: the grouping is a
partition into consecutive runs. -/
theorem chunksList_flatten_aux {α : Type} (G : Nat) (hG : 0 < G) :
    ∀ (n : Nat) (l : List α), l.length ≤ n → (chunksList G l).flatten = l := by
  intro n
  induction n with
  | zero =>
    intro l h
    have hl : l = [] := List.eq_nil_of_length_eq_zero (Nat.le_zero.mp h)
    subst hl
    rfl
  | succ n ih =>
    intro l h
    by_cases hl : l = []
    · subst hl; rfl
    · rw [chunksList_cons G hG l hl]
      have hpos : 0 < l.length := List.length_pos.mpr hl
      have hdl : (l.drop G).length = l.length - G := List.length_drop G l
      rw [List.flatten_cons, ih (l.drop G) (by omega), List.take_append_drop]

theorem chunksList_flatten {α : Type} (G : Nat) (hG : 0 < G) (l : List α) :
    (chunksList G l).flatten = l :=
  chunksList_flatten_aux G hG l.length l le_rfl

/-- Every chunk is non-empty and holds at most `G` elements. -/
theorem chunksList_mem_aux {α : Type} (G : Nat) (hG : 0 < G) :
    ∀ (n : Nat) (l : List α), l.length ≤ n →
      ∀ c ∈ chunksList G l, c ≠ [] ∧ c.length ≤ G := by
  intro n
  induction n with
  | zero =>
    intro l h
    have hl : l = [] := List.eq_nil_of_length_eq_zero (Nat.le_zero.mp h)
    subst hl
    intro c hc
    simp [chunksList, chunks_go] at hc
  | succ n ih =>
    intro l h
    by_cases hl : l = []
    · subst hl; intro c hc; simp [chunksList, chunks_go] at hc
    · rw [chunksList_cons G hG l hl]
      intro c hc
      have hpos : 0 < l.length := List.length_pos.mpr hl
      have hdl : (l.drop G).length = l.length - G := List.length_drop G l
      rcases List.mem_cons.mp hc with hc1 | hc1
      · subst hc1
        constructor
        · intro htk
          rcases List.take_eq_nil_iff.mp htk with h0 | h0 <;>
            first
              | omega
              | exact hl h0
        · simp [List.length_take]
      · exact ih (l.drop G) (by rw [hdl]; omega) c hc1

theorem chunksList_mem {α : Type} (G : Nat) (hG : 0 < G) (l : List α) :
    ∀ c ∈ chunksList G l, c ≠ [] ∧ c.length ≤ G :=
  chunksList_mem_aux G hG l.length l le_rfl

/-! ### C1 — group partition and per-group port assignment -/

/-- Under the no-overflow precondition, the i-th configuration of a group
really gets port `start + i`. -/
theorem group_ports_no_overflow (start n : Nat) (hs : start + n ≤ 65536) :
    group_ports start n = (List.range n).map (fun i => start + i) := by
  unfold group_ports
  apply List.map_congr_left
  intro i hi
  have hilt : i < n := List.mem_range.mp hi
  unfold port_of
  have h1 : i % 65536 = i := Nat.mod_eq_of_lt (by omega)
  have h2 : (start + i) % 65536 = start + i := Nat.mod_eq_of_lt (by omega)
  rw [h1, h2]

/-- C1 (amended: the claim additionally needs the no-overflow
precondition `start_port + G ≤ 65536`, forced by the u16 wrap exhibited in
`c1_port_overflow_counterexample`): the scheduler splits a non-empty
configuration list into `⌈len / G⌉` consecutive groups (the last possibly
smaller), and inside each group the i-th configuration gets port
`start_port + i` — consecutive ports with no gaps or duplicates, the same
range for every group of the same length. -/
theorem c1_group_partition_and_ports (G : Nat) (l : List String) (start : Nat)
    (hG : 0 < G) (_hl : l ≠ []) (hs : start + G ≤ 65536) :
    (chunksList G l).length = (l.length + G - 1) / G ∧
    (chunksList G l).flatten = l ∧
    (∀ c ∈ chunksList G l, c ≠ [] ∧ c.length ≤ G ∧
      group_ports start c.length = (List.range c.length).map (fun i => start + i) ∧
      (group_ports start c.length).Nodup) := by
  refine ⟨chunksList_length G hG l, chunksList_flatten G hG l, ?_⟩
  intro c hc
  obtain ⟨hne, hlen⟩ := chunksList_mem G hG l c hc
  have hports : group_ports start c.length = (List.range c.length).map (fun i => start + i) :=
    group_ports_no_overflow start c.length (by omega)
  refine ⟨hne, hlen, hports, ?_⟩
  rw [hports]
  exact (List.nodup_range c.length).map (fun a b hab => by omega)

/-- Witness for C1 at `G = 2`, three configurations, `start_port = 1080`:
two groups `[["c1", "c2"], ["c3"]]`, group ports `[1080, 1081]`. -/
theorem c1_group_partition_and_ports_witness :
    (chunksList 2 ["c1", "c2", "c3"]).length = 2 ∧
    (chunksList 2 ["c1", "c2", "c3"]).flatten = ["c1", "c2", "c3"] ∧
    chunksList 2 ["c1", "c2", "c3"] = [["c1", "c2"], ["c3"]] ∧
    group_ports 1080 2 = [1080, 1081] ∧
    group_ports 1080 1 = [1080] := by
  have h := c1_group_partition_and_ports 2 ["c1", "c2", "c3"] 1080 (by decide)
    (by decide) (by decide)
  refine ⟨?_, h.2.1, by decide, ?_, by decide⟩
  · rw [h.1]; decide
  · have hm : (["c1", "c2"] : List String) ∈ chunksList 2 ["c1", "c2", "c3"] := by decide
    have := (h.2.2 ["c1", "c2"] hm).2.2.1
    simpa using this

/-- C1 counterexample: with `start_port = 65535` a group of two
configurations does not get ports `65535, 65536` — the u16 addition wraps
and the second configuration gets port `0`. -/
theorem c1_port_overflow_counterexample :
    group_ports 65535 2 ≠ (List.range 2).map (fun i => 65535 + i) ∧
    group_ports 65535 2 = [65535, 0] := by
  constructor <;> decide

/-! ### C10 — the port arithmetic is an unchecked u16 addition -/

/-- C10: port assignment is well defined exactly under
`start_port + i ≤ 65535`; past that the addition wraps modulo `2 ^ 16`
(release semantics), yielding a port strictly below `start_port` with no
guard in the code.  `start ≤ 65535` is the u16 range of the setting,
`i ≤ 65535` covers every index a wrap can keep meaningful. -/
theorem c10_port_addition_wraps (start i : Nat) (hstart : start ≤ 65535)
    (hi : i ≤ 65535) :
    (start + i ≤ 65535 → port_of start i = start + i) ∧
    (65535 < start + i → port_of start i = start + i - 65536 ∧ port_of start i < start) := by
  unfold port_of
  have h1 : i % 65536 = i := Nat.mod_eq_of_lt (by omega)
  rw [h1]
  constructor
  · intro hle
    exact Nat.mod_eq_of_lt (by omega)
  · intro hgt
    have h2 : (start + i) % 65536 = (start + i - 65536) % 65536 := by
      conv_lhs => rw [Nat.mod_eq_sub_mod (by omega)]
    have h3 : (start + i - 65536) % 65536 = start + i - 65536 :=
      Nat.mod_eq_of_lt (by omega)
    rw [h2, h3]
    omega

/-- Witness for C10 at `start_port = 65535`, second group index: the
computed port is `0`, a low port below the start port. -/
theorem c10_port_addition_wraps_witness :
    port_of 65535 1 = 0 ∧ port_of 65535 1 < 65535 := by
  have h := (c10_port_addition_wraps 65535 1 (by decide) (by decide)).2 (by decide)
  norm_num at h
  exact h

/-! ### C2 — the group barrier -/

/-- Every event of `group_trace g n` belongs to group `g`. -/
theorem evGroup_of_mem_group_trace {e : SchedEv} {g n : Nat}
    (h : e ∈ group_trace g n) : evGroup e = g := by
  unfold group_trace at h
  rcases List.mem_append.mp h with h1 | h1 <;>
    · obtain ⟨i, _, rfl⟩ := List.mem_map.mp h1
      rfl

/-- Events of the tail trace belong to group `g` or later. -/
theorem le_evGroup_of_mem_sched_trace_aux {e : SchedEv} :
    ∀ (g : Nat) (lens : List Nat), e ∈ sched_trace_aux g lens → g ≤ evGroup e := by
  intro g lens
  induction lens generalizing g with
  | nil => intro h; simp [sched_trace_aux] at h
  | cons n rest ih =>
    intro h
    rcases List.mem_append.mp h with h1 | h1
    · exact (evGroup_of_mem_group_trace h1).ge
    · exact le_trans (Nat.le_succ g) (ih (g + 1) h1)

/-- The scheduler trace is ordered by group: groups are processed
strictly sequentially. -/
theorem sched_trace_aux_pairwise :
    ∀ (g : Nat) (lens : List Nat),
      (sched_trace_aux g lens).Pairwise (fun a b => evGroup a ≤ evGroup b) := by
  intro g lens
  induction lens generalizing g with
  | nil => simp [sched_trace_aux]
  | cons n rest ih =>
    rw [sched_trace_aux, List.pairwise_append]
    refine ⟨?_, ih (g + 1), ?_⟩
    · have hall : ∀ e ∈ group_trace g n, evGroup e = g := fun e he =>
        evGroup_of_mem_group_trace he
      exact List.Pairwise.imp_of_mem
        (fun {a b} ha hb _ => by rw [hall a ha, hall b hb])
        (List.pairwise_of_forall_mem_list fun a _ b _ => trivial)
    · intro a ha b hb
      rw [evGroup_of_mem_group_trace ha]
      exact le_trans (Nat.le_succ g) (le_evGroup_of_mem_sched_trace_aux (g + 1) rest hb)

/-- C2: in the scheduler trace, the await-return of every Config Runner
of group `k` precedes the spawn of every Config Runner of any later group
`m`: the scheduler does not launch group `k + 1` until group `k` has
fully drained, so two processes never hold the same reused port
concurrently. -/
theorem c2_group_barrier (G : Nat) (cfgs : List String) (p q : Nat)
    (hp : p < (sched_trace G cfgs).length) (hq : q < (sched_trace G cfgs).length)
    (k i m j : Nat)
    (hpe : (sched_trace G cfgs).get ⟨p, hp⟩ = SchedEv.taskDone k i)
    (hqe : (sched_trace G cfgs).get ⟨q, hq⟩ = SchedEv.spawnTask m j)
    (hkm : k < m) : p < q := by
  have hpw : (sched_trace G cfgs).Pairwise (fun a b => evGroup a ≤ evGroup b) :=
    sched_trace_aux_pairwise 1 ((chunksList G cfgs).map List.length)
  rw [List.pairwise_iff_get] at hpw
  rcases Nat.lt_trichotomy p q with h | h | h
  · exact h
  · exfalso
    subst h
    rw [hpe] at hqe
    exact SchedEv.noConfusion hqe
  · exfalso
    have hle := hpw ⟨q, hq⟩ ⟨p, hp⟩ h
    rw [hpe, hqe] at hle
    simp [evGroup] at hle
    omega

/-- Witness for C2: `G = 1` over two configurations gives the trace
`[spawn 1 0, done 1 0, spawn 2 0, done 2 0]`; the completion of group 1's
runner (position 1) precedes the spawn of group 2's runner (position 2). -/
theorem c2_group_barrier_witness :
    sched_trace 1 ["a", "b"] =
      [SchedEv.spawnTask 1 0, SchedEv.taskDone 1 0,
       SchedEv.spawnTask 2 0, SchedEv.taskDone 2 0] ∧
    (1 : Nat) < 2 := by
  refine ⟨by decide, ?_⟩
  exact c2_group_barrier 1 ["a", "b"] 1 2 (by decide) (by decide) 1 0 2 0
    (by decide) (by decide) (by decide)

/-! ### C8 — inter-group delay only between groups (src/main.rs) -/

/-- Shape of the src/main.rs scheduler's delay placement: one delay
strictly between consecutive groups, none after the last, provided
`total` is the index of the last group. -/
theorem run_all_groups_sched_aux_eq (total : Nat) :
    ∀ (cs : List (List String)) (gn : Nat), gn + cs.length - 1 = total →
      run_all_groups_sched_aux total gn cs =
        List.intersperse GEv.delay ((List.range' gn cs.length).map GEv.group) := by
  intro cs
  induction cs with
  | nil => intro gn _; simp [run_all_groups_sched_aux]
  | cons c rest ih =>
    intro gn htot
    cases rest with
    | nil =>
      have hnlt : ¬ gn < total := by simp at htot; omega
      simp [run_all_groups_sched_aux, hnlt, List.range']
    | cons c2 rest2 =>
      have hlt : gn < total := by simp at htot; omega
      have hrec := ih (gn + 1) (by simp at htot ⊢; omega)
      rw [show run_all_groups_sched_aux total gn (c :: c2 :: rest2) =
            GEv.group gn :: ((if gn < total then [GEv.delay] else []) ++
              run_all_groups_sched_aux total (gn + 1) (c2 :: rest2)) from rfl,
          if_pos hlt, hrec]
      simp only [List.singleton_append]
      have hr : List.range' gn (c2 :: rest2).length.succ =
          gn :: (gn + 1) :: List.range' (gn + 2) rest2.length := by
        simp [List.range']
      simp only [List.length_cons] at hr ⊢
      rw [hr]
      have hr2 : List.range' (gn + 1) (rest2.length + 1) =
          (gn + 1) :: List.range' (gn + 2) rest2.length := by
        simp [List.range']
      rw [hr2]
      simp [List.intersperse_cons_cons]

/-- C8 (amended: true of the src/main.rs scheduler, which the
counterexample shows is violated by the stale top-level `main.rs`
revision): the inter-group delay happens exactly between consecutive
groups — the trace is the group events interspersed with single delays —
so nothing is waited after the final group. -/
theorem c8_delay_only_between_groups (G : Nat) (cfgs : List String) (hG : 0 < G) :
    run_all_groups_sched G cfgs =
      List.intersperse GEv.delay
        ((List.range' 1 ((cfgs.length + G - 1) / G)).map GEv.group) := by
  unfold run_all_groups_sched
  have hlen := chunksList_length G hG cfgs
  rw [← hlen]
  exact run_all_groups_sched_aux_eq _ _ 1 (by omega)

/-- Witness for C8: one group of one configuration — the trace is just
`[group 1]`, no trailing delay. -/
theorem c8_delay_only_between_groups_witness :
    run_all_groups_sched 1 ["a"] =
      List.intersperse GEv.delay ((List.range' 1 ((1 + 1 - 1) / 1)).map GEv.group) ∧
    run_all_groups_sched 1 ["a"] = [GEv.group 1] := by
  constructor
  · have h := c8_delay_only_between_groups 1 ["a"] (by decide)
    simpa using h
  · decide

/-- C8 counterexample: the top-level `main.rs` scheduler sleeps
unconditionally at the end of the group loop, so after the final (here:
only) group the run still pauses — its trace ends with a delay event. -/
theorem c8_sleep_after_last_group_counterexample :
    main_rev_sched 1 ["cfg"] = [GEv.group 1, GEv.delay] ∧
    (main_rev_sched 1 ["cfg"]).getLast? = some GEv.delay := by
  constructor <;> decide

/-! ### C3 — probe success condition -/

/-- C3 (amended: true of `test_domain` in src/main.rs; the counterexample
shows the stale top-level `main.rs` `test_domain_via_socks5` attempts the
HTTP fallback only on an HTTPS *transport* failure, so a non-2xx HTTPS
response alone fails the probe there): once the client is built, the
probe succeeds iff the HTTPS attempt returns 2xx, or else the HTTP
fallback attempt returns 2xx; it fails exactly when both attempts either
transport-fail or return a non-2xx status. -/
theorem c3_probe_success_iff (d : String) (https http : Option Bool) :
    (test_domain d true https http).2 = true ↔
      (https = some true ∨ http = some true) := by
  rcases https with _ | b1 <;> rcases http with _ | b2 <;>
    simp [test_domain]

/-- C3 counterexample: in the top-level `main.rs` revision, an HTTPS
response with a non-2xx status (`some false`) ends the probe as failed
even though the HTTP attempt would return 2xx (`some true`) — the claimed
biconditional is false there. -/
theorem c3_no_fallback_counterexample :
    ¬ (((test_domain_via_socks5 "example.com" true (some false) (some true)).2 = true) ↔
        ((some false : Option Bool) = some true ∨ (some true : Option Bool) = some true)) := by
  decide

/-! ### C4 — top-10 ranking order -/

theorem cmpRat_eq_lt (x y : ℚ) : cmpRat x y = .lt ↔ x < y := by
  unfold cmpRat
  split_ifs with h1 h2
  · exact iff_of_true rfl h1
  · exact iff_of_false (by simp) (by rw [h2]; exact lt_irrefl y)
  · exact iff_of_false (by simp) h1

theorem cmpRat_eq_eq (x y : ℚ) : cmpRat x y = .eq ↔ x = y := by
  unfold cmpRat
  split_ifs with h1 h2
  · exact iff_of_false (by simp) (ne_of_lt h1)
  · exact iff_of_true rfl h2
  · exact iff_of_false (by simp) h2

theorem cmpNat_ne_gt (x y : Nat) : cmpNat x y ≠ .gt ↔ x ≤ y := by
  unfold cmpNat
  split_ifs with h1 h2
  · exact iff_of_true (by simp) (le_of_lt h1)
  · exact iff_of_true (by simp) (le_of_eq h2)
  · exact iff_of_false (by simp) (by omega)

theorem ordering_then_ne_gt (o o' : Ordering) :
    o.then o' ≠ .gt ↔ (o = .lt ∨ (o = .eq ∧ o' ≠ .gt)) := by
  cases o <;> cases o' <;> decide

/-- The comparator of `write_top_configs` accepts `a` before `b` iff `a`
has the strictly larger rate, or an equal rate and at least as many
successful domains. -/
theorem rankLe_iff (a b : TestResult) :
    rankLe a b ↔ (b.success_rate < a.success_rate ∨
      (b.success_rate = a.success_rate ∧
        b.successful_domains.length ≤ a.successful_domains.length)) := by
  unfold rankLe cmp_results
  rw [ordering_then_ne_gt, cmpRat_eq_lt, cmpRat_eq_eq, cmpNat_ne_gt]

/-- C4 (amended: true of `write_top_configs` in src/main.rs; the
counterexample shows the stale top-level `main.rs` report sorts by raw
successful count only, ignoring the rate): the ranking used for the
top-10 section lists results by success rate descending, ties broken by
raw successful-domain count descending, and is a permutation of the
stored results. -/
theorem c4_top_configs_ranking (rs : List TestResult) :
    (sort_results rs).Pairwise (fun a b =>
      b.success_rate < a.success_rate ∨
      (b.success_rate = a.success_rate ∧
        b.successful_domains.length ≤ a.successful_domains.length)) ∧
    (sort_results rs).Perm rs := by
  haveI htotal : IsTotal TestResult rankLe := ⟨by
    intro a b
    rw [rankLe_iff, rankLe_iff]
    rcases lt_trichotomy b.success_rate a.success_rate with h | h | h
    · exact Or.inl (Or.inl h)
    · rcases Nat.le_total b.successful_domains.length a.successful_domains.length with hn | hn
      · exact Or.inl (Or.inr ⟨h, hn⟩)
      · exact Or.inr (Or.inr ⟨h.symm, hn⟩)
    · exact Or.inr (Or.inl h)⟩
  haveI htrans : IsTrans TestResult rankLe := ⟨by
    intro a b c hab hbc
    rw [rankLe_iff] at hab hbc ⊢
    rcases hab with h1 | ⟨h1, h1n⟩ <;> rcases hbc with h2 | ⟨h2, h2n⟩
    · exact Or.inl (lt_trans h2 h1)
    · exact Or.inl (by rw [h2]; exact h1)
    · exact Or.inl (by rw [← h1]; exact h2)
    · exact Or.inr ⟨h2.trans h1, le_trans h2n h1n⟩⟩
  constructor
  · exact List.Pairwise.imp (fun h => (rankLe_iff _ _).mp h)
      (List.sorted_insertionSort rankLe rs)
  · exact List.perm_insertionSort rankLe rs

/-- C4 counterexample: the top-level `main.rs` report ranks a 5-of-10
result (rate 50%) above a 1-of-1 result (rate 100%) because its sort
compares only the raw successful counts. -/
theorem c4_count_only_sort_counterexample :
    sort_results_v1
        [⟨"cfgA", 1080, ["d1"], []⟩,
         ⟨"cfgB", 1081, ["x1", "x2", "x3", "x4", "x5"], ["y1", "y2", "y3", "y4", "y5"]⟩] =
      [⟨"cfgB", 1081, ["x1", "x2", "x3", "x4", "x5"], ["y1", "y2", "y3", "y4", "y5"]⟩,
       ⟨"cfgA", 1080, ["d1"], []⟩] ∧
    spec_success_rate ⟨"cfgB", 1081, ["x1", "x2", "x3", "x4", "x5"],
        ["y1", "y2", "y3", "y4", "y5"]⟩ <
      spec_success_rate ⟨"cfgA", 1080, ["d1"], []⟩ := by
  constructor
  · decide
  · norm_num [spec_success_rate]

/-! ### C5 — spawn failure isolation in a group -/

/-- Unconditional description of `process_group_model`: the appended
`TestResult`s are exactly those of the configurations whose spawn
succeeded, and the group totals range over exactly those. -/
theorem process_group_spec (start : Nat) :
    ∀ (i : Nat) (crs : List ConfigRun),
      ((process_group_model start i crs).1.map (fun r => r.config) =
        (crs.filter (fun cr => cr.spawn_ok)).map (fun cr => cr.config)) ∧
      ((process_group_model start i crs).1.length =
        (crs.filter (fun cr => cr.spawn_ok)).length) ∧
      ((process_group_model start i crs).2.total =
        ((crs.filter (fun cr => cr.spawn_ok)).map (fun cr => cr.probes.length)).sum) ∧
      ((process_group_model start i crs).2.successful =
        ((crs.filter (fun cr => cr.spawn_ok)).map
          (fun cr => (cr.probes.filter (fun p => p.2)).length)).sum) := by
  intro i crs
  induction crs generalizing i with
  | nil => simp [process_group_model]
  | cons cr rest ih =>
    obtain ⟨ih1, ih2, ih3, ih4⟩ := ih (i + 1)
    have hlen : cr.probes.length =
        (cr.probes.filter (fun p => p.2)).length +
          (cr.probes.filter (fun p => !p.2)).length :=
      List.length_eq_length_filter_add (fun p => p.2)
    by_cases hok : cr.spawn_ok
    · simp only [process_group_model, run_config_test_model, test_all_domains_model,
        List.partition_eq_filter_filter, hok, if_true, List.filter_cons, List.map_cons,
        List.length_cons, List.sum_cons, List.length_map, TestResult.new]
      refine ⟨?_, ?_, ?_, ?_⟩
      · rw [ih1]
      · rw [ih2]
      · rw [ih3]
        have : (cr.probes.filter (not ∘ fun r => r.2)).length =
            (cr.probes.filter (fun p => !p.2)).length := rfl
        omega
      · rw [ih4]
    · have hok' : cr.spawn_ok = false := Bool.not_eq_true _ ▸ eq_false_of_ne_true hok
      simp only [process_group_model, run_config_test_model, hok', if_false,
        List.filter_cons, Bool.false_eq_true, ite_false]
      exact ⟨ih1, ih2, ih3, ih4⟩

/-- C5: if the external process spawn fails for some configuration of a
group, that configuration contributes no `TestResult`, every other
configuration of the group still produces its `TestResult`, and the
group's aggregate totals count only the completed configurations. -/
theorem c5_spawn_failure_isolated (start i0 : Nat) (crs : List ConfigRun)
    (h : ∃ cr ∈ crs, cr.spawn_ok = false) :
    ((process_group_model start i0 crs).1.map (fun r => r.config) =
      (crs.filter (fun cr => cr.spawn_ok)).map (fun cr => cr.config)) ∧
    (process_group_model start i0 crs).1.length < crs.length ∧
    ((process_group_model start i0 crs).2.total =
      ((crs.filter (fun cr => cr.spawn_ok)).map (fun cr => cr.probes.length)).sum) ∧
    ((process_group_model start i0 crs).2.successful =
      ((crs.filter (fun cr => cr.spawn_ok)).map
        (fun cr => (cr.probes.filter (fun p => p.2)).length)).sum) := by
  obtain ⟨h1, h2, h3, h4⟩ := process_group_spec start i0 crs
  refine ⟨h1, ?_, h3, h4⟩
  rw [h2]
  obtain ⟨cr, hmem, hfalse⟩ := h
  exact List.length_filter_lt_length_iff_exists.mpr ⟨cr, hmem, by simp [hfalse]⟩

/-- Witness for C5: a group of three configurations whose middle spawn
fails — two `TestResult`s (for `cfgA`, `cfgC`), fewer results than
configurations, totals `2` probes / `1` success from the two completed
runners only. -/
theorem c5_spawn_failure_isolated_witness :
    ((process_group_model 1080 0
        [⟨"cfgA", true, [("d1", true)]⟩, ⟨"cfgB", false, [("d1", true)]⟩,
         ⟨"cfgC", true, [("d1", false)]⟩]).1.map (fun r => r.config) =
      ["cfgA", "cfgC"]) ∧
    (process_group_model 1080 0
        [⟨"cfgA", true, [("d1", true)]⟩, ⟨"cfgB", false, [("d1", true)]⟩,
         ⟨"cfgC", true, [("d1", false)]⟩]).1.length < 3 ∧
    (process_group_model 1080 0
        [⟨"cfgA", true, [("d1", true)]⟩, ⟨"cfgB", false, [("d1", true)]⟩,
         ⟨"cfgC", true, [("d1", false)]⟩]).2.total = 2 ∧
    (process_group_model 1080 0
        [⟨"cfgA", true, [("d1", true)]⟩, ⟨"cfgB", false, [("d1", true)]⟩,
         ⟨"cfgC", true, [("d1", false)]⟩]).2.successful = 1 := by
  have h := c5_spawn_failure_isolated 1080 0
    [⟨"cfgA", true, [("d1", true)]⟩, ⟨"cfgB", false, [("d1", true)]⟩,
     ⟨"cfgC", true, [("d1", false)]⟩]
    ⟨⟨"cfgB", false, [("d1", true)]⟩, by decide, rfl⟩
  exact ⟨h.1.trans (by decide), h.2.1, (h.2.2.1).trans (by decide),
    (h.2.2.2).trans (by decide)⟩

/-! ### C6 — success-rate zero-total guard -/

/-- C6 (amended: the code stores the rate scaled to percent,
`successes / total * 100`, as forced by
`c6_percent_scale_counterexample`): with a zero total the stored rate is
the constant `0` — the guard means the division is never taken, so no
division by zero and no NaN can arise — and with a positive total it is
exactly `successes / total * 100`. -/
theorem c6_success_rate_guard (c : String) (p : Nat) (succ fail : List String)
    (s t : Nat) :
    (succ.length + fail.length = 0 → (TestResult.new c p succ fail).success_rate = 0) ∧
    (0 < succ.length + fail.length →
      (TestResult.new c p succ fail).success_rate =
        ((succ.length : ℚ) / ((succ.length + fail.length : Nat) : ℚ)) * 100) ∧
    (t = 0 → GroupStats.success_rate ⟨s, t⟩ = 0) ∧
    (0 < t → GroupStats.success_rate ⟨s, t⟩ = ((s : ℚ) / (t : ℚ)) * 100) := by
  refine ⟨?_, ?_, ?_, ?_⟩
  · intro h
    simp [TestResult.new, h]
  · intro h
    simp [TestResult.new, h, Nat.not_eq_zero_of_lt h]
  · intro h
    simp [GroupStats.success_rate, h]
  · intro h
    simp [GroupStats.success_rate, h, Nat.not_eq_zero_of_lt h]

/-- C6 counterexample: for 1 success out of 2 probes the stored rate is
`50`, not the quotient `1 / 2` — the code keeps the rate in percent. -/
theorem c6_percent_scale_counterexample :
    (TestResult.new "cfg" 1080 ["a"] ["b"]).success_rate = 50 ∧
    (TestResult.new "cfg" 1080 ["a"] ["b"]).success_rate ≠ (1 : ℚ) / 2 := by
  constructor <;> norm_num [TestResult.new]

/-- Witness for C6: empty and `1/2` `TestResult`s, zero and `3/4`
`GroupStats`. -/
theorem c6_success_rate_guard_witness :
    (TestResult.new "cfg" 1080 [] []).success_rate = 0 ∧
    (TestResult.new "cfg" 1080 ["a"] ["b"]).success_rate =
      (((["a"] : List String).length : ℚ) /
        (((["a"] : List String).length + (["b"] : List String).length : Nat) : ℚ)) * 100 ∧
    GroupStats.success_rate ⟨0, 0⟩ = 0 ∧
    GroupStats.success_rate ⟨3, 4⟩ = ((3 : ℚ) / (4 : ℚ)) * 100 := by
  exact ⟨(c6_success_rate_guard "cfg" 1080 [] [] 0 0).1 (by decide),
    (c6_success_rate_guard "cfg" 1080 ["a"] ["b"] 0 0).2.1 (by decide),
    (c6_success_rate_guard "cfg" 1080 [] [] 0 0).2.2.1 rfl,
    (c6_success_rate_guard "cfg" 1080 [] [] 3 4).2.2.2 (by decide)⟩

/-! ### C7 — teardown on every exit path -/

theorem dropLast_append_pair {α : Type} (L : List α) (a b : α) :
    (L ++ [a, b]).dropLast = L ++ [a] := by
  have h : L ++ [a, b] = (L ++ [a]) ++ [b] := by simp
  rw [h, List.dropLast_concat]

theorem getLast?_append_pair {α : Type} (L : List α) (a b : α) :
    (L ++ [a, b]).getLast? = some b := by
  have h : L ++ [a, b] = (L ++ [a]) ++ [b] := by simp
  rw [h, List.getLast?_concat]

/-- C7 (amended: teardown failures are silently discarded — `let _ =` —
not logged, as `c7_teardown_not_logged_counterexample` shows; they are
indeed never escalated): whenever the spawn succeeded, the runner
attempts both `kill` and `wait` strictly before returning, whatever the
probe outcomes and whatever the teardown results; the runner still
appends its `TestResult` and returns success even when teardown fails. -/
theorem c7_teardown_always_runs (spawnRes killOk waitOk : Bool)
    (probes : List (String × Bool)) (h : spawnRes = true) :
    RunEv.killProc killOk ∈ (run_config_test_trace spawnRes killOk waitOk probes).dropLast ∧
    RunEv.waitProc waitOk ∈ (run_config_test_trace spawnRes killOk waitOk probes).dropLast ∧
    (run_config_test_trace spawnRes killOk waitOk probes).getLast? = some (RunEv.ret true) ∧
    RunEv.append ∈ run_config_test_trace spawnRes killOk waitOk probes ∧
    (run_config_test_trace spawnRes killOk waitOk probes).filter isLogEv = [] := by
  subst h
  have htr : run_config_test_trace true killOk waitOk probes =
      ([RunEv.spawnOk, RunEv.sleep] ++ probes.map (fun p => RunEv.probe p.1 p.2) ++
        [RunEv.killProc killOk, RunEv.waitProc waitOk]) ++
        [RunEv.append, RunEv.ret true] := by
    simp [run_config_test_trace, stop_process_trace]
  rw [htr, dropLast_append_pair, getLast?_append_pair]
  refine ⟨?_, ?_, rfl, ?_, ?_⟩
  · simp
  · simp
  · simp
  · simp only [List.filter_append]
    have h1 : (probes.map fun p => RunEv.probe p.1 p.2).filter isLogEv = [] := by
      rw [List.filter_eq_nil_iff]
      intro a ha
      obtain ⟨p, _, rfl⟩ := List.mem_map.mp ha
      simp [isLogEv]
    simp [isLogEv, h1]

/-- Witness for C7: the spawn succeeded, the only probe failed, and both
teardown calls fail — kill and wait still happen before the return, the
result is still appended, the run still returns success, nothing is
logged. -/
theorem c7_teardown_always_runs_witness :
    RunEv.killProc false ∈ (run_config_test_trace true false false [("d1", false)]).dropLast ∧
    RunEv.waitProc false ∈ (run_config_test_trace true false false [("d1", false)]).dropLast ∧
    (run_config_test_trace true false false [("d1", false)]).getLast? = some (RunEv.ret true) ∧
    RunEv.append ∈ run_config_test_trace true false false [("d1", false)] ∧
    (run_config_test_trace true false false [("d1", false)]).filter isLogEv = [] :=
  c7_teardown_always_runs true false false [("d1", false)] rfl

/-- C7 counterexample: a run in which both teardown calls fail emits no
log event at all — the claim that teardown failure "is logged" is false;
the results are discarded by `let _ = child.kill(); let _ = child.wait()`. -/
theorem c7_teardown_not_logged_counterexample :
    (run_config_test_trace true false false [("example.com", true)]).filter isLogEv = [] ∧
    RunEv.killProc false ∈ run_config_test_trace true false false [("example.com", true)] ∧
    RunEv.waitProc false ∈ run_config_test_trace true false false [("example.com", true)] := by
  refine ⟨?_, ?_, ?_⟩ <;> decide

/-! ### C9 — snapshot writes are idempotent modulo the timestamp -/

/-- C9: for a fixed result collection, two renderings of the report agree
line for line except for the single `Generated:` line (line index 4 of
the header), which carries the generation timestamp; and the written file
content is a function of the results alone — the previous file content is
discarded (truncate-and-rewrite), so repeated snapshot calls with no new
results are byte-identical apart from that timestamp field. -/
theorem c9_snapshot_idempotent_modulo_timestamp (t1 t2 old1 old2 : String)
    (rs : List TestResult) :
    (report_lines t1 rs).take 4 = (report_lines t2 rs).take 4 ∧
    (report_lines t1 rs)[4]? = some ("Generated: " ++ t1) ∧
    (report_lines t1 rs).drop 5 = (report_lines t2 rs).drop 5 ∧
    write_results_file_model old1 t1 rs = write_results_file_model old2 t1 rs :=
  ⟨rfl, rfl, rfl, rfl⟩
